import Mathlib

/-!
Shallow embedding of the core of the `btc-semantic-analysis` repository
(`src/btc_sentiment`), together with theorems checking the natural-language
specification against it.

Conventions used throughout:
* Python floats carrying sentiment scores are modelled as rationals (`ℚ`);
  the arithmetic performed by the code (affine rescale, clamping, arithmetic
  mean) is exact in this model.
* Timestamps are modelled as integers (seconds since the epoch, UTC).
  `datetime`/pandas day-normalisation (`.normalize()`, midnight flooring) is
  floor division by 86400; on `Int` the `/` operator is Euclidean division,
  which for the positive divisor 86400 coincides with floor division, i.e.
  with Python's `//`.
* The VADER analyzer (`SentimentIntensityAnalyzer.polarity_scores`) is an
  external library; it is passed in as an oracle `String → ℚ` producing the
  compound polarity of a text.
* Network transports (Telegram via telethon, Binance REST) are passed in as
  explicit response functions, so the adapters' control flow (pagination,
  rate-limit retry, cursor advance) is modelled over arbitrary transport
  behaviours.
-/

namespace BtcSentiment

/-! ## Sentiment service (`services/sentiment_service.py`) -/

/-- Python's `str.strip()`: remove whitespace from both ends of a string
(modelled over the character list of the string). -/
def pyStrip (s : String) : String :=
  ⟨((s.data.dropWhile Char.isWhitespace).reverse.dropWhile
      Char.isWhitespace).reverse⟩

/-- `SentimentService._label_from_norm`: `negative` for `norm < low`,
`positive` for `norm > high`, otherwise `neutral` (strict comparisons, as in
the source). -/
def labelFromNorm (low high norm : ℚ) : String :=
  if norm < low then "negative"
  else if norm > high then "positive"
  else "neutral"

/-- Constructor default `low_thresh` of `SentimentService.__init__`. -/
def defaultLowThresh : ℚ := 50

/-- Constructor default `high_thresh` of `SentimentService.__init__`. -/
def defaultHighThresh : ℚ := 50

/-- Threshold the pipelines pass explicitly:
`SentimentService(low_thresh=50, high_thresh=50)` in
`run_ingest_pipeline` and `run_simple_analysis`. -/
def pipelineLowThresh : ℚ := 50

/-- Threshold the pipelines pass explicitly (the `high_thresh=50` argument). -/
def pipelineHighThresh : ℚ := 50

/-- One output record of `SentimentService.annotate`. -/
structure AnnotatedRecord where
  text : String
  compound : ℚ
  norm_score : ℚ
  label : String
deriving DecidableEq, Repr, Inhabited

/-- `SentimentService.annotate`: each text is stripped, scored by the
(external) analyzer, rescaled by `(comp + 1) * 50` clamped to `[0, 100]`,
and labelled through `_label_from_norm`. -/
def annotate (polarity : String → ℚ) (low high : ℚ)
    (texts : List String) : List AnnotatedRecord :=
  texts.map (fun t0 =>
    let t := pyStrip t0
    let comp := polarity t
    let norm := max 0 (min 100 ((comp + 1) * 50))
    { text := t, compound := comp, norm_score := norm,
      label := labelFromNorm low high norm })

/-! ## Pipeline window computation (`_calc_window`, identical in
`pipelines/ingest_pipeline.py` and `pipelines/price_sentiment_pipeline.py`) -/

/-- Midnight (00:00:00) of the UTC calendar day containing instant `t`
(seconds). Models `.replace(hour=0, minute=0, second=0, microsecond=0)`. -/
def dayStart (t : Int) : Int := (t / 86400) * 86400

/-- 23:59:59 of the UTC calendar day containing instant `t` (seconds).
Models `.replace(hour=23, minute=59, second=59, microsecond=0)`. -/
def dayEnd (t : Int) : Int := (t / 86400) * 86400 + 86399

/-- `_calc_window(days_back, include_today)` at current instant `now`
(seconds since epoch, UTC): the end is `now` with the time of day replaced by
23:59:59 (shifted one day back first when `include_today` is false), and the
start is `end - timedelta(days=days_back - 1)` with the time of day replaced
by 00:00:00. -/
def calcWindow (now : Int) (days_back : Int) (include_today : Bool) :
    Int × Int :=
  let e0 := dayEnd now
  if include_today then
    (dayStart (e0 - (days_back - 1) * 86400), e0)
  else
    let e1 := dayEnd (e0 - 86400)
    (dayStart (e1 - (days_back - 1) * 86400), e1)

/-! ## Binance price adapter (`adapters/binance_price_adapter.py`) -/

/-- Outcome of one iteration of the `while True` pagination loop in
`BinancePriceAdapter.fetch_daily_close` (successful-response path). Only the
open times (column 0 of each kline row) drive the loop, so a page is a
`List Int` of open times in milliseconds. -/
inductive PageStep where
  | stop (rows : List Int)
  | advance (cursor : Int) (rows : List Int)
deriving DecidableEq, Repr

/-- One iteration of the kline pagination loop: request the page at `cursor`;
an empty page breaks; otherwise the rows are collected and the next cursor is
the last row's open time plus 1 ms, breaking when it would exceed `endMs` or
when it equals the current cursor. -/
def klineStep (resp : Int → List Int) (endMs cursor : Int) : PageStep :=
  match resp cursor with
  | [] => .stop []
  | b :: bs =>
      let nxt := bs.getLastD b + 1
      if endMs < nxt then .stop (b :: bs)
      else if nxt = cursor then .stop (b :: bs)
      else .advance nxt (b :: bs)

/-- Fuel-indexed run of the pagination loop of `fetch_daily_close`: `none`
means the loop has not terminated within `fuel` iterations, `some rows` is the
collected `all_rows` at exit. (The HTTP-429 sleep-and-retry path repeats a
request verbatim and is orthogonal to cursor movement; `resp` models the
successful responses.) -/
def fetchPagesFuel (resp : Int → List Int) (endMs : Int) :
    Nat → Int → List Int → Option (List Int)
  | 0, _, _ => none
  | fuel + 1, cursor, acc =>
      match klineStep resp endMs cursor with
      | .stop rows => some (acc ++ rows)
      | .advance nxt rows => fetchPagesFuel resp endMs fuel nxt (acc ++ rows)

/-- A concrete transport under which the pagination loop cycles: the page at
cursor 0 ends with open time 5 (next cursor 6) and the page at cursor 6 ends
with open time -1 (next cursor 0). -/
def cyclingResp : Int → List Int := fun c =>
  if c = 0 then [5] else if c = 6 then [-1] else []

/-! ## Telegram adapter (`adapters/telegram_adapter.py`) -/

/-- `models/telegram_message_model.py`'s `TelegramMessage`, restricted to the
fields the time-range fetch populates (the channel title is fixed per call). -/
structure TelegramMessage where
  id : Nat
  date : Int
  text : String
deriving DecidableEq, Repr

/-- One event produced by the transport's message iterator
(`client.iter_messages`): either a message or a `FloodWaitError` carrying the
reported wait in seconds. -/
inductive TgEvent where
  | msg (m : TelegramMessage)
  | floodWait (seconds : Nat)
deriving DecidableEq, Repr

/-- Message ids occurring in a transport stream, in order. -/
def msgIds (events : List TgEvent) : List Nat :=
  events.filterMap (fun e =>
    match e with
    | .msg m => some m.id
    | .floodWait _ => none)

/-- Whether a stream contains a rate-limit event. -/
def hasFloodWait (events : List TgEvent) : Bool :=
  events.any (fun e =>
    match e with
    | .msg _ => false
    | .floodWait _ => true)

/-- `TelegramAdapter._fetch_time_range_batches` run against a transport
stream: messages dated before `startDate` end the iteration (the pending
batch is still yielded); non-empty (stripped) texts are buffered and yielded
in batches of `batchSize`; a `FloodWaitError` aborts the generator, losing
the pending un-yielded batch. Returns the concatenation of the yielded
batches plus `some seconds` when a flood wait aborted the run. -/
def runRangeBatches (startDate : Int) (batchSize : Nat) :
    List TgEvent → List TelegramMessage → List TelegramMessage →
    List TelegramMessage × Option Nat
  | [], batch, out => (out ++ batch, none)
  | .floodWait s :: _, _, out => (out, some s)
  | .msg m :: rest, batch, out =>
      if m.date < startDate then (out ++ batch, none)
      else if pyStrip m.text = "" then
        runRangeBatches startDate batchSize rest batch out
      else if batchSize ≤ (batch ++ [{ m with text := pyStrip m.text }]).length then
        runRangeBatches startDate batchSize rest []
          (out ++ (batch ++ [{ m with text := pyStrip m.text }]))
      else
        runRangeBatches startDate batchSize rest
          (batch ++ [{ m with text := pyStrip m.text }]) out

/-- The retry loop of `TelegramAdapter.fetch_messages_time_range`
(`max_retries = 3`): each attempt consumes the transport stream for that
attempt number; batches already yielded extend `results` as they arrive; on a
`FloodWaitError` of at most 300 s the adapter sleeps and retries with a
halved batch size (floored at 10), keeping `results`; otherwise it breaks and
returns what it has. `remaining` is the number of attempts still allowed. -/
def fetchTimeRangeGo (transport : Nat → List TgEvent) (startDate : Int) :
    Nat → Nat → Nat → List TelegramMessage → List TelegramMessage
  | 0, _, _, results => results
  | remaining + 1, attempt, batchSize, results =>
      match runRangeBatches startDate batchSize (transport attempt) [] [] with
      | (out, none) => results ++ out
      | (out, some s) =>
          if s ≤ 300 then
            fetchTimeRangeGo transport startDate remaining (attempt + 1)
              (max (batchSize / 2) 10) (results ++ out)
          else results ++ out

/-- `TelegramAdapter.fetch_messages_time_range` (post-authentication,
entity-resolved path). -/
def fetchMessagesTimeRange (transport : Nat → List TgEvent) (startDate : Int)
    (batchSize : Nat) : List TelegramMessage :=
  fetchTimeRangeGo transport startDate 3 0 batchSize []

/-- A transport whose single page stream repeats one record, as a paginated
stub with an overlapping record at a page boundary produces when flattened. -/
def overlapTransport : Nat → List TgEvent := fun _ =>
  [.msg ⟨1, 5, "btc up"⟩, .msg ⟨1, 5, "btc up"⟩]

/-- A transport that rate-limits the first attempt after one full batch has
been yielded, then serves the same record again on the retry. -/
def floodTransport : Nat → List TgEvent := fun attempt =>
  if attempt = 0 then [.msg ⟨7, 5, "hodl"⟩, .floodWait 10]
  else [.msg ⟨7, 5, "hodl"⟩]

/-! ## Aggregator (`services/aggregator.py`)

`Aggregator.aggregate` takes message-level record dicts
(`date`, `source`, `norm_score`, `label`), groups them by
(source, UTC-midnight-normalised day), and optionally left-joins the result
onto a full source × day grid. pandas specifics embedded here:

* `groupby(["source", "date"], as_index=False)` sorts the group keys
  ascending (source lexicographically by code point — Python string `<` —
  then date);
* `Series.mode()` returns the values of maximal multiplicity sorted
  ascending, so `.mode().iat[0]` is the lexicographically least among them,
  and an empty input series gives the `"neutral"` fallback;
* `merge(..., how="left")` keeps exactly one output row per grid row (the
  aggregate side has unique keys) and `sort_values(["source", "date"])`
  orders the result by source then date;
* records whose `date` or `source` fail to parse are dropped by `dropna`;
  the model's records are well-typed, so every record participates.

A `DailySentiment.date` is represented by its day number (days since the
epoch of the UTC calendar day; the Python value is that day's midnight). -/

/-- Day number of the UTC calendar day containing timestamp `t` (seconds):
the `pd.to_datetime(..., utc=True).tz_convert(None).normalize()` step,
i.e. floor division of the timestamp by 86400. -/
def normDay (t : Int) : Int := t / 86400

/-- A scored message-level record as fed to `Aggregator.aggregate`. -/
structure SRec where
  date : Int
  source : String
  norm_score : ℚ
  label : String
deriving DecidableEq, Repr

/-- `services/aggregator.py`'s `DailySentiment` row (date as day number). -/
structure DailySentiment where
  date : Int
  source : String
  avg_score : ℚ
  count : Nat
  label : String
deriving DecidableEq, Repr

/-- Grouping key of a record: (source, normalised day). -/
def recKey (r : SRec) : String × Int := (r.source, normDay r.date)

/-- Ordering on group keys used by `groupby` and `sort_values`: by source
(Python string `<`, code-point lexicographic) then by day. -/
def keyLE (a b : String × Int) : Prop :=
  a.1 < b.1 ∨ (a.1 = b.1 ∧ a.2 ≤ b.2)

instance : DecidableRel keyLE := fun a b =>
  decidable_of_iff (a.1 < b.1 ∨ (a.1 = b.1 ∧ a.2 ≤ b.2)) Iff.rfl

instance : IsTotal (String × Int) keyLE where
  total a b := by
    rcases lt_trichotomy a.1 b.1 with h | h | h
    · exact Or.inl (Or.inl h)
    · rcases Int.le_total a.2 b.2 with h2 | h2
      · exact Or.inl (Or.inr ⟨h, h2⟩)
      · exact Or.inr (Or.inr ⟨h.symm, h2⟩)
    · exact Or.inr (Or.inl h)

instance : IsTrans (String × Int) keyLE where
  trans a b c hab hbc := by
    rcases hab with h1 | ⟨e1, l1⟩
    · rcases hbc with h2 | ⟨e2, _⟩
      · exact Or.inl (h1.trans h2)
      · exact Or.inl (e2 ▸ h1)
    · rcases hbc with h2 | ⟨e2, l2⟩
      · exact Or.inl (e1 ▸ h2)
      · exact Or.inr ⟨e1.trans e2, l1.trans l2⟩

instance : IsAntisymm (String × Int) keyLE where
  antisymm a b hab hba := by
    rcases hab with h1 | ⟨e1, l1⟩
    · rcases hba with h2 | ⟨e2, _⟩
      · exact absurd (h1.trans h2) (lt_irrefl _)
      · exact absurd h1 (e2 ▸ lt_irrefl _)
    · rcases hba with h2 | ⟨e2, l2⟩
      · exact absurd h2 (e1 ▸ lt_irrefl _)
      · exact Prod.ext e1 (le_antisymm l1 l2)

/-- `s.mode().iat[0] if not s.mode().empty else "neutral"`: the
lexicographically least value of maximal multiplicity, `"neutral"` when the
series is empty. -/
def modeLabel (labs : List String) : String :=
  ((List.insertionSort (· ≤ ·) labs.dedup).find? (fun l =>
    labs.count l ==
      ((List.insertionSort (· ≤ ·) labs.dedup).map
        (fun l => labs.count l)).foldr max 0)).getD "neutral"

/-- The aggregate row for group key `k`: mean of `norm_score`, group size,
mode of labels over the records with that key. -/
def groupRow (records : List SRec) (k : String × Int) : DailySentiment :=
  { date := k.2, source := k.1,
    avg_score :=
      ((records.filter (fun r => recKey r == k)).map
        (fun r => r.norm_score)).sum /
      ((records.filter (fun r => recKey r == k)).length : ℚ),
    count := (records.filter (fun r => recKey r == k)).length,
    label := modeLabel ((records.filter (fun r => recKey r == k)).map
      (fun r => r.label)) }

/-- The sorted, duplicate-free group keys produced by
`groupby(["source", "date"])`. -/
def aggKeys (records : List SRec) : List (String × Int) :=
  List.insertionSort keyLE (records.map recKey).dedup

/-- The per-day aggregate table `agg`, one row per observed (source, day),
sorted by key. -/
def aggGroups (records : List SRec) : List DailySentiment :=
  (aggKeys records).map (groupRow records)

/-- `pd.date_range(start=s, end=e, freq="D")` over day numbers: the days
from `s` to `e` inclusive (empty when `e < s`). -/
def dayRange (s e : Int) : List Int :=
  (List.range (e - s + 1).toNat).map (fun (i : Nat) => s + (i : Int))

/-- `sorted(agg["source"].unique()) or ["telegram"]`: the observed sources
sorted ascending, with `["telegram"]` as the fallback for empty data. -/
def fallbackSources (agg : List DailySentiment) : List String :=
  let u := List.insertionSort (· ≤ ·) (agg.map (fun d => d.source)).dedup
  if u.isEmpty then ["telegram"] else u

/-- One output row of the gap-filled branch for grid key `k`: the matching
row of `agg` if the left join found one, otherwise the synthetic row
`count=0`, `avg_score=neutral_fill`, `label=no_data_label`. -/
def gapRow (agg : List DailySentiment) (neutral_fill : ℚ)
    (no_data_label : String) (k : String × Int) : DailySentiment :=
  match agg.find? (fun a => a.source == k.1 && a.date == k.2) with
  | some a => a
  | none => { date := k.2, source := k.1, avg_score := neutral_fill,
              count := 0, label := no_data_label }

/-- The source set of the full grid: `list(sources) if sources else
(sorted(agg["source"].unique()) or ["telegram"])` — a supplied `None` or
empty iterable is falsy and falls back to the observed sources. -/
def gridSources (agg : List DailySentiment) :
    Option (List String) → List String
  | some S => if S.isEmpty then fallbackSources agg else S
  | none => fallbackSources agg

/-- The gap-filled branch of `Aggregator.aggregate`: build the cartesian
grid `MultiIndex.from_product([all_sources, full_dates])`, left-join `agg`
onto it, fill the missing cells, and sort by (source, date). -/
def gapFill (agg : List DailySentiment) (sDay eDay : Int) (neutral_fill : ℚ)
    (no_data_label : String) (sources : Option (List String)) :
    List DailySentiment :=
  let days := dayRange sDay eDay
  let grid := (gridSources agg sources).flatMap
    (fun src => days.map (fun d => (src, d)))
  (List.insertionSort keyLE grid).map (gapRow agg neutral_fill no_data_label)

/-- `Aggregator.aggregate`. Window bounds are timestamps (seconds); `none`
models Python `None`. With `fill_missing` and both bounds given, the full
source × day grid is built and left-joined against the aggregate table;
otherwise the sparse aggregate table is returned as-is. -/
def aggregate (records : List SRec) (start_date end_date : Option Int)
    (fill_missing : Bool) (neutral_fill : ℚ) (no_data_label : String)
    (sources : Option (List String)) : List DailySentiment :=
  match fill_missing, start_date, end_date with
  | true, some s, some e =>
      gapFill (aggGroups records) (normDay s) (normDay e) neutral_fill
        no_data_label sources
  | _, _, _ => aggGroups records

/-- The (source, day) key of an output row. -/
def rowKey (d : DailySentiment) : String × Int := (d.source, d.date)

/-- Output-row ordering claimed by the spec: by source, then by date. -/
def rowLE (a b : DailySentiment) : Prop := keyLE (rowKey a) (rowKey b)

/-! ## Theorems -/

/-- Claim C2 (counterexample): with thresholds low=45, high=55 the labelling
function of the source is strict at both boundaries, so norm=45 is labelled
"neutral", not "negative", and norm=55 is labelled "neutral", not
"positive" — refuting the claim's inclusive-boundary behaviour. -/
theorem label_boundary_counterexample :
    labelFromNorm 45 55 45 = "neutral" ∧ labelFromNorm 45 55 45 ≠ "negative" ∧
    labelFromNorm 45 55 55 = "neutral" ∧ labelFromNorm 45 55 55 ≠ "positive" := by
  refine ⟨?_, ?_, ?_, ?_⟩ <;> decide

/-- Claim C2 (amended): with thresholds low=45 and high=55, the labelling
function maps norm=44 to "negative", norm=45 to "neutral" (boundary excluded
from negative), norm=50 to "neutral", norm=55 to "neutral" (boundary
excluded from positive), and norm=56 to "positive" — strict `<`/`>`
comparisons at both thresholds. -/
theorem label_boundaries_strict :
    labelFromNorm 45 55 44 = "negative" ∧ labelFromNorm 45 55 45 = "neutral" ∧
    labelFromNorm 45 55 50 = "neutral" ∧ labelFromNorm 45 55 55 = "neutral" ∧
    labelFromNorm 45 55 56 = "positive" := by
  refine ⟨?_, ?_, ?_, ?_, ?_⟩ <;> decide

/-- Claim C10: with the thresholds the pipelines configure (low=50, high=50,
also the constructor defaults), a record is labelled "neutral" exactly when
its norm score is 50, "negative" exactly when it is strictly below 50, and
"positive" exactly when it is strictly above 50 — a single-point neutral
band. -/
theorem pipeline_label_single_point_neutral (norm : ℚ) :
    pipelineLowThresh = defaultLowThresh ∧
    pipelineHighThresh = defaultHighThresh ∧
    pipelineLowThresh = 50 ∧ pipelineHighThresh = 50 ∧
    (labelFromNorm 50 50 norm = "neutral" ↔ norm = 50) ∧
    (labelFromNorm 50 50 norm = "negative" ↔ norm < 50) ∧
    (labelFromNorm 50 50 norm = "positive" ↔ 50 < norm) := by
  refine ⟨rfl, rfl, rfl, rfl, ?_, ?_, ?_⟩ <;>
    unfold labelFromNorm <;>
    rcases lt_trichotomy norm (50 : ℚ) with h | h | h
  · rw [if_pos h]
    exact iff_of_false (by decide) (ne_of_lt h)
  · rw [if_neg (by rw [h]; exact lt_irrefl _), if_neg (by rw [h]; exact lt_irrefl _)]
    exact iff_of_true rfl h
  · rw [if_neg (asymm h), if_pos h]
    exact iff_of_false (by decide) (ne_of_gt h)
  · rw [if_pos h]
    exact iff_of_true rfl h
  · rw [if_neg (by rw [h]; exact lt_irrefl _), if_neg (by rw [h]; exact lt_irrefl _)]
    exact iff_of_false (by decide) (by rw [h]; exact lt_irrefl _)
  · rw [if_neg (asymm h), if_pos h]
    exact iff_of_false (by decide) (asymm h)
  · rw [if_pos h]
    exact iff_of_false (by decide) (asymm h)
  · rw [if_neg (by rw [h]; exact lt_irrefl _), if_neg (by rw [h]; exact lt_irrefl _)]
    exact iff_of_false (by decide) (by rw [h]; exact lt_irrefl _)
  · rw [if_neg (asymm h), if_pos h]
    exact iff_of_true rfl h

/-- Claim C10 (witness): the characterisation evaluated at norm=49. -/
theorem pipeline_label_single_point_neutral_witness :
    (labelFromNorm 50 50 49 = "neutral" ↔ (49 : ℚ) = 50) ∧
    (labelFromNorm 50 50 49 = "negative" ↔ (49 : ℚ) < 50) ∧
    (labelFromNorm 50 50 49 = "positive" ↔ (50 : ℚ) < 49) :=
  ⟨(pipeline_label_single_point_neutral 49).2.2.2.2.1,
   (pipeline_label_single_point_neutral 49).2.2.2.2.2.1,
   (pipeline_label_single_point_neutral 49).2.2.2.2.2.2⟩

/-- Claim C5: every record produced by `annotate` has
`norm_score = clamp((compound + 1) * 50, 0, 100)`; in particular compound
-1, 0 and 1 yield norm scores 0, 50 and 100. -/
theorem annotate_affine_clamp (polarity : String → ℚ) (low high : ℚ)
    (texts : List String) (a : AnnotatedRecord)
    (ha : a ∈ annotate polarity low high texts) :
    a.norm_score = max 0 (min 100 ((a.compound + 1) * 50)) ∧
    (a.compound = -1 → a.norm_score = 0) ∧
    (a.compound = 0 → a.norm_score = 50) ∧
    (a.compound = 1 → a.norm_score = 100) := by
  unfold annotate at ha
  rcases List.mem_map.mp ha with ⟨t0, _, rfl⟩
  refine ⟨rfl, ?_, ?_, ?_⟩
  · intro h
    have h2 : polarity (pyStrip t0) = -1 := h
    show max 0 (min 100 ((polarity (pyStrip t0) + 1) * 50)) = 0
    rw [h2]; norm_num
  · intro h
    have h2 : polarity (pyStrip t0) = 0 := h
    show max 0 (min 100 ((polarity (pyStrip t0) + 1) * 50)) = 50
    rw [h2]; norm_num
  · intro h
    have h2 : polarity (pyStrip t0) = 1 := h
    show max 0 (min 100 ((polarity (pyStrip t0) + 1) * 50)) = 100
    rw [h2]; norm_num

/-- Claim C5 (witness): the affine-clamp identity on the record produced for
a concrete text by a constant-zero analyzer. -/
theorem annotate_affine_clamp_witness :
    ((annotate (fun _ => 0) 50 50 ["btc"]).headI ∈
      annotate (fun _ => 0) 50 50 ["btc"]) ∧
    (annotate (fun _ => 0) 50 50 ["btc"]).headI.norm_score =
      max 0 (min 100
        (((annotate (fun _ => 0) 50 50 ["btc"]).headI.compound + 1) * 50)) :=
  have hm : (annotate (fun _ => (0 : ℚ)) 50 50 ["btc"]).headI ∈
      annotate (fun _ => 0) 50 50 ["btc"] := List.mem_cons_self _ _
  ⟨hm, (annotate_affine_clamp (fun _ => 0) 50 50 ["btc"] _ hm).1⟩

/-- Claim C8: for `days_back ≥ 1`, `_calc_window` ends the window at
23:59:59 of today (`include_today = true`) or of yesterday
(`include_today = false`), starts it at the day start obtained by stepping
`days_back - 1` days back from the end, and therefore spans exactly
`days_back` calendar days inclusive. -/
theorem calc_window_spans_days_back (now db : Int) (it : Bool)
    (hdb : 1 ≤ db) :
    (calcWindow now db it).2 =
      (if it then normDay now else normDay now - 1) * 86400 + 86399 ∧
    (calcWindow now db it).1 =
      dayStart ((calcWindow now db it).2 - (db - 1) * 86400) ∧
    normDay (calcWindow now db it).2 - normDay (calcWindow now db it).1 + 1
      = db := by
  cases it <;>
    refine ⟨?_, ?_, ?_⟩ <;>
    simp only [calcWindow, dayStart, dayEnd, normDay, Bool.false_eq_true,
      ite_true, ite_false] <;>
    omega

/-- Claim C8 (witness): the window shape evaluated at a concrete instant
(`now = 200000`, two days back, today included). -/
theorem calc_window_spans_days_back_witness :
    (1 : Int) ≤ 2 ∧
    ((calcWindow 200000 2 true).2 =
      (if true then normDay 200000 else normDay 200000 - 1) * 86400 + 86399 ∧
    (calcWindow 200000 2 true).1 =
      dayStart ((calcWindow 200000 2 true).2 - (2 - 1) * 86400) ∧
    normDay (calcWindow 200000 2 true).2 -
      normDay (calcWindow 200000 2 true).1 + 1 = 2) :=
  ⟨by decide, calc_window_spans_days_back 200000 2 true (by decide)⟩

/-- Claim C9 (counterexample): the pagination loop of `fetch_daily_close`
does not terminate for every transport response function. Under
`cyclingResp` the cursor cycles 0 → 6 → 0 (the stall check only breaks exact
fixpoints `next == cursor`, not cycles through a backwards-moving cursor),
and the loop is still running after 40 iterations. -/
theorem binance_cursor_cycle_counterexample :
    klineStep cyclingResp 100 0 = .advance 6 [5] ∧
    klineStep cyclingResp 100 6 = .advance 0 [-1] ∧
    fetchPagesFuel cyclingResp 100 40 0 [] = none := by
  refine ⟨rfl, rfl, rfl⟩

/-- Unfolding `klineStep` on a non-empty page. -/
theorem klineStep_cons (resp : Int → List Int) (endMs c b : Int)
    (bs : List Int) (hresp : resp c = b :: bs) :
    klineStep resp endMs c =
      if endMs < bs.getLastD b + 1 then PageStep.stop (b :: bs)
      else if bs.getLastD b + 1 = c then PageStep.stop (b :: bs)
      else PageStep.advance (bs.getLastD b + 1) (b :: bs) := by
  unfold klineStep
  rw [hresp]

/-- Unfolding `klineStep` on an empty page. -/
theorem klineStep_nil (resp : Int → List Int) (endMs c : Int)
    (hresp : resp c = []) : klineStep resp endMs c = .stop [] := by
  unfold klineStep
  rw [hresp]

/-- After every non-empty page the loop either exits or advances the cursor
to the page's last open time plus 1 ms. -/
theorem klineStep_advances (resp : Int → List Int) (endMs c : Int)
    (b : Int) (bs : List Int) (hresp : resp c = b :: bs) :
    klineStep resp endMs c = .stop (b :: bs) ∨
    klineStep resp endMs c = .advance (bs.getLastD b + 1) (b :: bs) := by
  rw [klineStep_cons resp endMs c b bs hresp]
  by_cases h1 : endMs < bs.getLastD b + 1
  · exact Or.inl (by rw [if_pos h1])
  · by_cases h2 : bs.getLastD b + 1 = c
    · exact Or.inl (by rw [if_neg h1, if_pos h2])
    · exact Or.inr (by rw [if_neg h1, if_neg h2])

/-- For a transport that never returns a bar opening before the requested
cursor, the loop terminates within `(endMs - cursor) + 2` iterations. -/
theorem fetchPagesFuel_terminates (resp : Int → List Int) (endMs : Int)
    (hmono : ∀ c t, t ∈ resp c → c ≤ t) :
    ∀ fuel cursor acc, (endMs - cursor).toNat + 2 ≤ fuel →
      (fetchPagesFuel resp endMs fuel cursor acc).isSome = true := by
  intro fuel
  induction fuel with
  | zero => intro cursor acc h; omega
  | succ f ih =>
      intro cursor acc h
      unfold fetchPagesFuel
      cases hresp : resp cursor with
      | nil => rw [klineStep_nil resp endMs cursor hresp]; rfl
      | cons b bs =>
          have hcl : cursor ≤ bs.getLastD b :=
            hmono _ _ (by rw [hresp]; exact List.getLastD_mem_cons bs b)
          rw [klineStep_cons resp endMs cursor b bs hresp]
          by_cases h1 : endMs < bs.getLastD b + 1
          · rw [if_pos h1]; rfl
          · by_cases h2 : bs.getLastD b + 1 = cursor
            · rw [if_neg h1, if_pos h2]; rfl
            · rw [if_neg h1, if_neg h2]
              exact ih (bs.getLastD b + 1) (acc ++ (b :: bs)) (by omega)

/-- Claim C9 (amended): the kline pagination loop advances its cursor to the
last returned bar's open time plus 1 ms after every non-empty page, and it
terminates for every transport whose pages only contain bars opening at or
after the requested cursor (as the real endpoint guarantees for a
`startTime` filter): each page then strictly advances the cursor, which is
bounded by the requested end, so the loop exits within `(endMs - start) + 2`
iterations — via the empty-page, cursor-past-end or explicit
`next == cursor` stall checks. A transport that moves the cursor backwards
can still cycle forever, so the guarantee does not hold for every transport
response function. -/
theorem binance_fetch_advances_and_terminates (resp : Int → List Int)
    (endMs : Int) :
    (∀ c b bs, resp c = b :: bs →
      klineStep resp endMs c = .stop (b :: bs) ∨
      klineStep resp endMs c = .advance (bs.getLastD b + 1) (b :: bs)) ∧
    ((∀ c t, t ∈ resp c → c ≤ t) → ∀ cursor acc,
      (fetchPagesFuel resp endMs ((endMs - cursor).toNat + 2) cursor
        acc).isSome = true) :=
  ⟨fun c b bs h => klineStep_advances resp endMs c b bs h,
   fun hmono cursor acc =>
     fetchPagesFuel_terminates resp endMs hmono _ cursor acc (le_refl _)⟩

/-- Claim C9 (witness): termination and cursor advance under the concrete
monotone transport returning a single bar opening exactly at the cursor. -/
theorem binance_fetch_advances_and_terminates_witness :
    (fetchPagesFuel (fun c => [c]) 1 ((1 - (0 : Int)).toNat + 2) 0
      []).isSome = true :=
  (binance_fetch_advances_and_terminates (fun c => [c]) 1).2
    (fun c t ht => by
      rw [List.mem_singleton] at ht
      omega)
    0 []

/-- `msgIds` on the empty stream. -/
theorem msgIds_nil : msgIds [] = [] := rfl

/-- `msgIds` past a message event. -/
theorem msgIds_msg (m : TelegramMessage) (rest : List TgEvent) :
    msgIds (.msg m :: rest) = m.id :: msgIds rest := rfl

/-- `msgIds` past a rate-limit event. -/
theorem msgIds_flood (s : Nat) (rest : List TgEvent) :
    msgIds (.floodWait s :: rest) = msgIds rest := rfl

/-- A generator run over a stream without rate-limit events completes
normally. -/
theorem runRangeBatches_no_flood (startDate : Int) (batchSize : Nat) :
    ∀ (events : List TgEvent) (batch out : List TelegramMessage),
      hasFloodWait events = false →
      (runRangeBatches startDate batchSize events batch out).2 = none := by
  intro events
  induction events with
  | nil => intro batch out _; rfl
  | cons e rest ih =>
      intro batch out hf
      cases e with
      | floodWait s => simp [hasFloodWait] at hf
      | msg m =>
          have hf' : hasFloodWait rest = false := by
            simp only [hasFloodWait, List.any_cons, Bool.or_eq_false_iff]
              at hf
            exact hf.2
          unfold runRangeBatches
          by_cases h1 : m.date < startDate
          · rw [if_pos h1]
          · rw [if_neg h1]
            by_cases h2 : pyStrip m.text = ""
            · rw [if_pos h2]; exact ih _ _ hf'
            · rw [if_neg h2]
              by_cases h3 : batchSize ≤
                  (batch ++ [{ m with text := pyStrip m.text }]).length
              · rw [if_pos h3]; exact ih _ _ hf'
              · rw [if_neg h3]; exact ih _ _ hf'

/-- The ids of the messages a generator run returns form a sublist of the
pending output, the pending batch and the ids remaining in the stream: the
generator never invents or duplicates transport records. -/
theorem runRangeBatches_ids_sublist (startDate : Int) (batchSize : Nat) :
    ∀ (events : List TgEvent) (batch out : List TelegramMessage),
      ((runRangeBatches startDate batchSize events batch out).1.map
          (fun m => m.id)).Sublist
        (out.map (fun m => m.id) ++
          (batch.map (fun m => m.id) ++ msgIds events)) := by
  intro events
  induction events with
  | nil =>
      intro batch out
      simp only [runRangeBatches, msgIds_nil, List.append_nil,
        List.map_append]
      exact List.Sublist.refl _
  | cons e rest ih =>
      intro batch out
      cases e with
      | floodWait s =>
          simp only [runRangeBatches, msgIds_flood]
          exact List.sublist_append_left _ _
      | msg m =>
          unfold runRangeBatches
          rw [msgIds_msg]
          by_cases h1 : m.date < startDate
          · rw [if_pos h1]
            simp only [List.map_append]
            exact List.Sublist.append_left (List.sublist_append_left _ _) _
          · rw [if_neg h1]
            by_cases h2 : pyStrip m.text = ""
            · rw [if_pos h2]
              exact (ih batch out).trans
                (List.Sublist.append_left (List.Sublist.append_left
                  (List.sublist_cons_self _ _) _) _)
            · rw [if_neg h2]
              by_cases h3 : batchSize ≤
                  (batch ++ [{ m with text := pyStrip m.text }]).length
              · rw [if_pos h3]
                have := ih [] (out ++ (batch ++ [{ m with text := pyStrip m.text }]))
                simpa [List.append_assoc] using this
              · rw [if_neg h3]
                have := ih (batch ++ [{ m with text := pyStrip m.text }]) out
                simpa [List.append_assoc] using this

/-- Claim C3 (counterexample): the time-range fetch deduplicates nothing.
With a transport whose flattened page stream repeats one record at a page
boundary the same (origin, message id) appears twice in the result, and with
a transport that rate-limits after a full yielded batch the retry re-fetches
from the initial cursor while keeping the already-collected results, again
emitting the same id twice. -/
theorem telegram_duplicate_counterexample :
    (fetchMessagesTimeRange overlapTransport 0 100).map (fun m => m.id)
      = [1, 1] ∧
    (fetchMessagesTimeRange floodTransport 0 1).map (fun m => m.id)
      = [7, 7] :=
  ⟨rfl, rfl⟩

/-- Claim C3 (amended): the adapter performs no (origin, id) deduplication
and, after a rate-limit wait, restarts from the initial cursor while keeping
already-collected results; each (origin, id) pair is guaranteed to occur at
most once only when the consumed transport stream yields each id at most
once — in particular when the first attempt completes without a rate-limit
event and its message ids are pairwise distinct. -/
theorem telegram_fetch_nodup_without_floodwait
    (transport : Nat → List TgEvent) (startDate : Int) (batchSize : Nat)
    (hflood : hasFloodWait (transport 0) = false)
    (hids : (msgIds (transport 0)).Nodup) :
    ((fetchMessagesTimeRange transport startDate batchSize).map
      (fun m => m.id)).Nodup := by
  unfold fetchMessagesTimeRange fetchTimeRangeGo
  cases hrun : runRangeBatches startDate batchSize (transport 0) [] [] with
  | mk out snd =>
      have hsnd : snd = none := by
        have h := runRangeBatches_no_flood startDate batchSize
          (transport 0) [] [] hflood
        rw [hrun] at h
        exact h
      subst hsnd
      have hsub := runRangeBatches_ids_sublist startDate batchSize
        (transport 0) [] []
      rw [hrun] at hsub
      simp only [List.map_nil, List.nil_append] at hsub
      simp only [List.nil_append]
      exact hids.sublist hsub

/-- Claim C3 (witness): a flood-free transport with distinct ids yields a
duplicate-free result. -/
theorem telegram_fetch_nodup_without_floodwait_witness :
    hasFloodWait [TgEvent.msg ⟨1, 5, "btc"⟩, TgEvent.msg ⟨2, 4, "eth"⟩]
      = false ∧
    (msgIds [TgEvent.msg ⟨1, 5, "btc"⟩, TgEvent.msg ⟨2, 4, "eth"⟩]).Nodup ∧
    ((fetchMessagesTimeRange
        (fun _ => [TgEvent.msg ⟨1, 5, "btc"⟩, TgEvent.msg ⟨2, 4, "eth"⟩])
        0 100).map (fun m => m.id)).Nodup :=
  ⟨rfl, by decide,
   telegram_fetch_nodup_without_floodwait
     (fun _ => [TgEvent.msg ⟨1, 5, "btc"⟩, TgEvent.msg ⟨2, 4, "eth"⟩])
     0 100 rfl (by decide)⟩

/-- The gap-filled branch of `aggregate`, unfolded. -/
theorem aggregate_gap_eq (records : List SRec) (s e : Int) (nf : ℚ)
    (ndl : String) (srcs : Option (List String)) :
    aggregate records (some s) (some e) true nf ndl srcs =
      (List.insertionSort keyLE
        ((gridSources (aggGroups records) srcs).flatMap
          (fun src => (dayRange (normDay s) (normDay e)).map
            (fun d => (src, d))))).map
        (gapRow (aggGroups records) nf ndl) := rfl

/-- The key of an aggregate-table row is its group key. -/
theorem rowKey_groupRow (records : List SRec) (k : String × Int) :
    rowKey (groupRow records k) = k := rfl

/-- The key of a gap-filled output row is the grid key it was built for
(either from the matched aggregate row, whose key the join predicate pins
down, or from the synthetic row). -/
theorem rowKey_gapRow (agg : List DailySentiment) (nf : ℚ) (ndl : String)
    (k : String × Int) : rowKey (gapRow agg nf ndl k) = k := by
  unfold gapRow
  rcases hf : agg.find? (fun a => a.source == k.1 && a.date == k.2)
      with _ | a
  · rw [hf]; rfl
  · rw [hf]
    have h := List.find?_some hf
    simp only [Bool.and_eq_true, beq_iff_eq] at h
    exact Prod.ext h.1 h.2

/-- Mapping a key-preserving row constructor over a key-sorted list yields a
row-sorted list. -/
theorem pairwise_rowLE_map (f : String × Int → DailySentiment)
    (hf : ∀ k, rowKey (f k) = k) (l : List (String × Int))
    (hl : List.Pairwise keyLE l) : (l.map f).Pairwise rowLE := by
  rw [List.pairwise_map]
  refine hl.imp ?_
  intro a b hab
  unfold rowLE
  rw [hf a, hf b]
  exact hab

/-- The sparse aggregate table is sorted by (source, date). -/
theorem pairwise_aggGroups (records : List SRec) :
    (aggGroups records).Pairwise rowLE :=
  pairwise_rowLE_map _ (fun k => rowKey_groupRow records k) _
    (List.sorted_insertionSort keyLE _)

/-- The gap-filled output is sorted by (source, date). -/
theorem pairwise_gapFill (agg : List DailySentiment) (sDay eDay : Int)
    (nf : ℚ) (ndl : String) (srcs : Option (List String)) :
    (gapFill agg sDay eDay nf ndl srcs).Pairwise rowLE :=
  pairwise_rowLE_map _ (fun k => rowKey_gapRow agg nf ndl k) _
    (List.sorted_insertionSort keyLE _)

/-- Claim C7: for every input, `Aggregator.aggregate` returns rows sorted by
source and, within a source, by date ascending — in the gap-filled branch
and in the sparse branch alike. -/
theorem aggregate_sorted_by_source_date (records : List SRec)
    (sd ed : Option Int) (fm : Bool) (nf : ℚ) (ndl : String)
    (srcs : Option (List String)) :
    (aggregate records sd ed fm nf ndl srcs).Pairwise rowLE := by
  cases fm <;> cases sd <;> cases ed <;>
    first
      | exact pairwise_aggGroups records
      | exact pairwise_gapFill (aggGroups records) _ _ nf ndl srcs

/-- Membership in the day grid is exactly the inclusive day window. -/
theorem mem_dayRange (s e d : Int) : d ∈ dayRange s e ↔ s ≤ d ∧ d ≤ e := by
  unfold dayRange
  simp only [List.mem_map, List.mem_range]
  constructor
  · rintro ⟨i, hi, rfl⟩
    omega
  · intro h
    exact ⟨(d - s).toNat, by omega, by omega⟩

/-- The day grid has no duplicate days. -/
theorem nodup_dayRange (s e : Int) : (dayRange s e).Nodup :=
  List.Nodup.map (fun a b h => by omega) (List.nodup_range _)

/-- The day grid covers `e - s + 1` days. -/
theorem length_dayRange (s e : Int) :
    (dayRange s e).length = (e - s + 1).toNat := by
  unfold dayRange
  rw [List.length_map, List.length_range]

/-- Summing a constant over a list multiplies it by the length. -/
theorem sum_map_const {α : Type} (l : List α) (n : Nat) :
    (l.map (fun _ => n)).sum = l.length * n := by
  induction l with
  | nil => simp
  | cons a t ih => simp [ih, Nat.succ_mul, Nat.add_comm]

/-- An element of a duplicate-free list is hit exactly once. -/
theorem countP_eq_one_of_nodup_mem {α : Type} [BEq α] [LawfulBEq α]
    (l : List α) (a : α) (hl : l.Nodup) (ha : a ∈ l) :
    l.countP (fun x => x == a) = 1 := by
  induction l with
  | nil => cases ha
  | cons b t ih =>
      rw [List.countP_cons]
      rcases List.mem_cons.mp ha with rfl | ha'
      · have hz : t.countP (fun x => x == a) = 0 := by
          rw [List.countP_eq_zero]
          intro x hx hbeq
          rw [beq_iff_eq] at hbeq
          subst hbeq
          exact (List.nodup_cons.mp hl).1 hx
        rw [hz]
        simp
      · have hne : (b == a) = false := by
          rw [beq_eq_false_iff_ne]
          rintro rfl
          exact (List.nodup_cons.mp hl).1 ha'
        rw [ih (List.nodup_cons.mp hl).2 ha', hne]
        simp

/-- A key whose source does not head the page contributes nothing. -/
theorem countP_map_fst_ne (days : List Int) (a src : String) (d : Int)
    (hne : a ≠ src) :
    (days.map (fun d' => (a, d'))).countP
      (fun k => k == ((src, d) : String × Int)) = 0 := by
  rw [List.countP_eq_zero]
  intro k hk hbeq
  rw [beq_iff_eq] at hbeq
  subst hbeq
  rcases List.mem_map.mp hk with ⟨d', _, heq⟩
  exact hne (congrArg Prod.fst heq)

/-- Counting a key in the page of its own source counts the day. -/
theorem countP_map_fst_eq (days : List Int) (src : String) (d : Int) :
    (days.map (fun d' => (src, d'))).countP
      (fun k => k == ((src, d) : String × Int)) =
      days.countP (fun d' => d' == d) := by
  rw [List.countP_map]
  refine List.countP_congr ?_
  intro x _
  simp only [Function.comp_apply, beq_iff_eq, Prod.mk.injEq, true_and]

/-- A source outside the source list contributes nothing to the grid. -/
theorem countP_grid_zero_of_not_mem (S : List String) (days : List Int)
    (src : String) (d : Int) (hsrc : src ∉ S) :
    (S.flatMap (fun s' => days.map (fun d' => (s', d')))).countP
      (fun k => k == ((src, d) : String × Int)) = 0 := by
  rw [List.countP_eq_zero]
  intro k hk hbeq
  rw [beq_iff_eq] at hbeq
  subst hbeq
  rcases List.mem_flatMap.mp hk with ⟨s', hs', hk2⟩
  rcases List.mem_map.mp hk2 with ⟨d', _, heq⟩
  have h1 : s' = src := congrArg Prod.fst heq
  exact hsrc (h1 ▸ hs')

/-- Every in-window (source, day) pair occurs exactly once in the cartesian
grid built from a duplicate-free source list and the day range. -/
theorem countP_grid (S : List String) (days : List Int) (src : String)
    (d : Int) (hS : S.Nodup) (hdays : days.Nodup) (hsrc : src ∈ S)
    (hd : d ∈ days) :
    (S.flatMap (fun s' => days.map (fun d' => (s', d')))).countP
      (fun k => k == ((src, d) : String × Int)) = 1 := by
  induction S with
  | nil => cases hsrc
  | cons a S ih =>
      rw [List.flatMap_cons, List.countP_append]
      rcases List.mem_cons.mp hsrc with rfl | hsrc'
      · rw [countP_grid_zero_of_not_mem S days src d
          (List.nodup_cons.mp hS).1]
        rw [countP_map_fst_eq days src d,
          countP_eq_one_of_nodup_mem days d hdays hd]
      · have hne : a ≠ src := fun h =>
          (List.nodup_cons.mp hS).1 (h ▸ hsrc')
        rw [countP_map_fst_ne days a src d hne,
          ih (List.nodup_cons.mp hS).2 hsrc']

/-- Claim C1: with gap filling, a window `start ≤ end` and an explicitly
supplied non-empty duplicate-free source set `S`, `aggregate` returns
exactly `|S| * (days in the window inclusive)` rows, and every (source, day)
pair with the source in `S` and the day in the window appears exactly
once. -/
theorem aggregate_gap_fill_complete (records : List SRec) (s e : Int)
    (S : List String) (nf : ℚ) (ndl : String)
    (hse : s ≤ e) (hS : S ≠ []) (hnd : S.Nodup) :
    (aggregate records (some s) (some e) true nf ndl (some S)).length
      = S.length * (normDay e - normDay s + 1).toNat ∧
    (∀ src d, src ∈ S → normDay s ≤ d → d ≤ normDay e →
      (aggregate records (some s) (some e) true nf ndl (some S)).countP
        (fun row => rowKey row == ((src, d) : String × Int)) = 1) := by
  have hSE : S.isEmpty = false := by
    cases S with
    | nil => exact absurd rfl hS
    | cons a t => rfl
  have hsrcs : gridSources (aggGroups records) (some S) = S := by
    simp only [gridSources, hSE, Bool.false_eq_true, if_false, ite_false]
  constructor
  · rw [aggregate_gap_eq, hsrcs, List.length_map,
      (List.perm_insertionSort keyLE _).length_eq, List.length_flatMap]
    have : List.map
        (List.length ∘ fun src =>
          (dayRange (normDay s) (normDay e)).map (fun d => (src, d))) S =
        List.map (fun _ => (normDay e - normDay s + 1).toNat) S := by
      refine List.map_congr_left ?_
      intro a _
      simp only [Function.comp]
      rw [List.length_map, length_dayRange]
    rw [this, sum_map_const]
  · intro src d hsrc hd1 hd2
    rw [aggregate_gap_eq, hsrcs, List.countP_map]
    have hcongr : List.countP
        ((fun row => rowKey row == ((src, d) : String × Int)) ∘
          gapRow (aggGroups records) nf ndl)
        (List.insertionSort keyLE
          (S.flatMap (fun src' =>
            (dayRange (normDay s) (normDay e)).map
              (fun d' => (src', d'))))) =
        List.countP (fun k => k == ((src, d) : String × Int))
          (List.insertionSort keyLE
            (S.flatMap (fun src' =>
              (dayRange (normDay s) (normDay e)).map
                (fun d' => (src', d'))))) := by
      refine List.countP_congr ?_
      intro k _
      simp only [Function.comp_apply]
      rw [rowKey_gapRow]
    rw [hcongr, List.Perm.countP_eq _ (List.perm_insertionSort keyLE _)]
    exact countP_grid S _ src d hnd (nodup_dayRange _ _) hsrc
      ((mem_dayRange _ _ _).mpr ⟨hd1, hd2⟩)

/-- Claim C1 (witness): an empty record list over a two-day window with the
singleton source set yields exactly two rows, one per (source, day) pair. -/
theorem aggregate_gap_fill_complete_witness :
    (0 : Int) ≤ 100000 ∧ (["telegram"] : List String) ≠ [] ∧
    (["telegram"] : List String).Nodup ∧
    (aggregate [] (some 0) (some 100000) true 50 "no_data"
      (some ["telegram"])).length =
      (["telegram"] : List String).length *
        (normDay 100000 - normDay 0 + 1).toNat ∧
    (aggregate [] (some 0) (some 100000) true 50 "no_data"
      (some ["telegram"])).countP
      (fun row => rowKey row == (("telegram", 0) : String × Int)) = 1 :=
  ⟨by decide, by decide, by decide,
   (aggregate_gap_fill_complete [] 0 100000 ["telegram"] 50 "no_data"
     (by decide) (by decide) (by decide)).1,
   (aggregate_gap_fill_complete [] 0 100000 ["telegram"] 50 "no_data"
     (by decide) (by decide) (by decide)).2 "telegram" 0 (by decide)
     (by decide) (by decide)⟩

/-- The mode label is drawn from the group's labels, or is the `"neutral"`
fallback for an empty series. -/
theorem modeLabel_mem_or_neutral (labs : List String) :
    modeLabel labs ∈ labs ∨ modeLabel labs = "neutral" := by
  unfold modeLabel
  rcases hfind : (List.insertionSort (· ≤ ·) labs.dedup).find?
      (fun l => labs.count l ==
        ((List.insertionSort (· ≤ ·) labs.dedup).map
          (fun l => labs.count l)).foldr max 0) with _ | l
  · right
    rfl
  · left
    exact List.mem_dedup.mp
      ((List.perm_insertionSort (· ≤ ·) labs.dedup).mem_iff.mp
        (List.mem_of_find?_eq_some hfind))

/-- Every row of the aggregate table is the group row of an observed key. -/
theorem mem_aggGroups (records : List SRec) (a : DailySentiment)
    (ha : a ∈ aggGroups records) :
    ∃ k, k ∈ records.map recKey ∧ a = groupRow records k := by
  unfold aggGroups aggKeys at ha
  rcases List.mem_map.mp ha with ⟨k, hk, rfl⟩
  exact ⟨k, List.mem_dedup.mp
    ((List.perm_insertionSort keyLE _).mem_iff.mp hk), rfl⟩

/-- A group row built for an observed key counts at least one record. -/
theorem groupRow_count_pos (records : List SRec) (k : String × Int)
    (hk : k ∈ records.map recKey) : 0 < (groupRow records k).count := by
  rcases List.mem_map.mp hk with ⟨r, hr, hrk⟩
  have hmem : r ∈ records.filter (fun r => recKey r == k) :=
    List.mem_filter.mpr ⟨hr, by rw [hrk]; exact beq_self_eq_true k⟩
  exact List.length_pos.mpr (List.ne_nil_of_mem hmem)

/-- The label of a group row is either the `"neutral"` fallback or the label
of one of the records in the group. -/
theorem groupRow_label_mem (records : List SRec) (k : String × Int) :
    (groupRow records k).label = "neutral" ∨
    ∃ r ∈ records, (groupRow records k).label = r.label := by
  rcases modeLabel_mem_or_neutral
      ((records.filter (fun r => recKey r == k)).map (fun r => r.label))
      with h | h
  · right
    rcases List.mem_map.mp h with ⟨r, hr, hrl⟩
    exact ⟨r, (List.mem_filter.mp hr).1, hrl.symm⟩
  · left
    exact h

/-- Claim C4: when every input label is negative, neutral or positive, a row
of the gap-filled output has count = 0 exactly when its label is
`"no_data"`: synthetic rows carry count = 0 and label `"no_data"`, real rows
carry a positive count and a label drawn from the inputs (or the neutral
fallback), never `"no_data"`. -/
theorem aggregate_no_data_iff_zero_count (records : List SRec) (s e : Int)
    (nf : ℚ) (srcs : Option (List String))
    (hlab : ∀ r ∈ records, r.label = "negative" ∨ r.label = "neutral" ∨
      r.label = "positive")
    (row : DailySentiment)
    (hrow : row ∈ aggregate records (some s) (some e) true nf "no_data"
      srcs) :
    (row.count = 0 ↔ row.label = "no_data") := by
  rw [aggregate_gap_eq] at hrow
  rcases List.mem_map.mp hrow with ⟨k, _, rfl⟩
  unfold gapRow
  rcases hf : (aggGroups records).find?
      (fun a => a.source == k.1 && a.date == k.2) with _ | a
  · rw [hf]
    exact iff_of_true rfl rfl
  · rw [hf]
    have haagg : a ∈ aggGroups records := List.mem_of_find?_eq_some hf
    rcases mem_aggGroups records a haagg with ⟨k', hk', rfl⟩
    have hpos := groupRow_count_pos records k' hk'
    have hlabel : (groupRow records k').label ≠ "no_data" := by
      rcases groupRow_label_mem records k' with h | ⟨r, hr, h⟩
      · rw [h]; decide
      · rw [h]
        rcases hlab r hr with h2 | h2 | h2 <;> rw [h2] <;> decide
    exact iff_of_false (Nat.pos_iff_ne_zero.mp hpos) hlabel

/-- Claim C4 (witness): one positive record on the single requested day —
the real row has count 1 and label "positive", so both sides of the
equivalence are false. -/
theorem aggregate_no_data_iff_zero_count_witness :
    (groupRow [⟨0, "telegram", 80, "positive"⟩] ("telegram", 0) ∈
      aggregate [⟨0, "telegram", 80, "positive"⟩] (some 0) (some 0) true 50
        "no_data" (some ["telegram"])) ∧
    ((groupRow [⟨0, "telegram", 80, "positive"⟩] ("telegram", 0)).count = 0
      ↔ (groupRow [⟨0, "telegram", 80, "positive"⟩]
          ("telegram", 0)).label = "no_data") :=
  have hmem : groupRow [⟨0, "telegram", 80, "positive"⟩] ("telegram", 0) ∈
      aggregate [⟨0, "telegram", 80, "positive"⟩] (some 0) (some 0) true 50
        "no_data" (some ["telegram"]) := List.mem_cons_self _ _
  ⟨hmem,
   aggregate_no_data_iff_zero_count [⟨0, "telegram", 80, "positive"⟩] 0 0
     50 (some ["telegram"]) (by decide) _ hmem⟩

/-- `find?` only depends on the values of the predicate on the list. -/
theorem find?_congr_of_eq {α : Type} {p q : α → Bool} :
    ∀ l : List α, (∀ x ∈ l, p x = q x) → l.find? p = l.find? q := by
  intro l
  induction l with
  | nil => intro _; rfl
  | cons a t ih =>
      intro h
      simp only [List.find?]
      rw [h a (List.mem_cons_self a t)]
      cases hq : q a with
      | true => rfl
      | false => exact ih (fun x hx => h x (List.mem_cons_of_mem a hx))

/-- The mode label is a function of the label multiset: permuting the labels
leaves both the sorted candidate list and every multiplicity unchanged, so
ties break identically. -/
theorem modeLabel_perm (l1 l2 : List String) (h : l1.Perm l2) :
    modeLabel l1 = modeLabel l2 := by
  unfold modeLabel
  have hd : List.insertionSort (· ≤ ·) l1.dedup =
      List.insertionSort (· ≤ ·) l2.dedup :=
    List.eq_of_perm_of_sorted
      ((List.perm_insertionSort _ _).trans
        (h.dedup.trans (List.perm_insertionSort _ _).symm))
      (List.sorted_insertionSort _ _) (List.sorted_insertionSort _ _)
  rw [hd]
  have hcnt : ∀ x, l1.count x = l2.count x := fun x => h.count_eq x
  have hmap : (List.insertionSort (· ≤ ·) l2.dedup).map
        (fun l => l1.count l) =
      (List.insertionSort (· ≤ ·) l2.dedup).map (fun l => l2.count l) :=
    List.map_congr_left (fun x _ => hcnt x)
  rw [hmap, find?_congr_of_eq _ (fun x _ => by rw [hcnt x])]

/-- Group statistics are functions of the group multiset. -/
theorem groupRow_perm (l1 l2 : List SRec) (h : l1.Perm l2)
    (k : String × Int) : groupRow l1 k = groupRow l2 k := by
  have hf : (l1.filter (fun r => recKey r == k)).Perm
      (l2.filter (fun r => recKey r == k)) := h.filter _
  unfold groupRow
  rw [hf.length_eq, (hf.map (fun r => r.norm_score)).sum_eq,
    modeLabel_perm _ _ (hf.map (fun r => r.label))]

/-- The sorted duplicate-free key list is a function of the record
multiset. -/
theorem aggKeys_perm (l1 l2 : List SRec) (h : l1.Perm l2) :
    aggKeys l1 = aggKeys l2 := by
  unfold aggKeys
  exact List.eq_of_perm_of_sorted
    ((List.perm_insertionSort _ _).trans
      ((h.map recKey).dedup.trans (List.perm_insertionSort _ _).symm))
    (List.sorted_insertionSort _ _) (List.sorted_insertionSort _ _)

/-- The whole aggregate table is a function of the record multiset. -/
theorem aggGroups_perm (l1 l2 : List SRec) (h : l1.Perm l2) :
    aggGroups l1 = aggGroups l2 := by
  unfold aggGroups
  rw [aggKeys_perm l1 l2 h]
  exact List.map_congr_left (fun k _ => groupRow_perm l1 l2 h k)

/-- Claim C6: `Aggregator.aggregate` returns identical output on any two
permutations of the same record list (same window, fill and source
arguments): grouping, per-group mean and count are order-independent, and a
tied label mode is resolved from the group's label multiset alone
(lexicographically least among the most frequent labels), not from input
order. -/
theorem aggregate_perm (l1 l2 : List SRec) (h : l1.Perm l2)
    (sd ed : Option Int) (fm : Bool) (nf : ℚ) (ndl : String)
    (srcs : Option (List String)) :
    aggregate l1 sd ed fm nf ndl srcs =
      aggregate l2 sd ed fm nf ndl srcs := by
  cases fm with
  | false => cases sd <;> cases ed <;> exact aggGroups_perm l1 l2 h
  | true =>
      cases sd with
      | none => cases ed <;> exact aggGroups_perm l1 l2 h
      | some s =>
          cases ed with
          | none => exact aggGroups_perm l1 l2 h
          | some e =>
              show gapFill (aggGroups l1) (normDay s) (normDay e) nf ndl
                  srcs =
                gapFill (aggGroups l2) (normDay s) (normDay e) nf ndl srcs
              rw [aggGroups_perm l1 l2 h]

/-- Claim C6 (witness): two records of one group fed in both orders produce
the same output. -/
theorem aggregate_perm_witness :
    aggregate [⟨0, "telegram", 80, "positive"⟩,
        ⟨0, "telegram", 20, "negative"⟩]
      (some 0) (some 0) true 50 "no_data" (some ["telegram"]) =
    aggregate [⟨0, "telegram", 20, "negative"⟩,
        ⟨0, "telegram", 80, "positive"⟩]
      (some 0) (some 0) true 50 "no_data" (some ["telegram"]) :=
  aggregate_perm _ _
    (List.Perm.swap ⟨0, "telegram", 20, "negative"⟩
      ⟨0, "telegram", 80, "positive"⟩ [])
    (some 0) (some 0) true 50 "no_data" (some ["telegram"])

end BtcSentiment
